import Mathlib

/-!
Verification development for the repair-report tool
(`repair_report_tool-11.py`, with `repair_report_modern.py` sharing the same
export engine).  The Python export/layout engine is shallowly embedded below:
pure data-flow is translated into executable Lean functions, the file-system
environment (which paths exist, which decode, and the decoded pixel sizes) is
an explicit parameter, and the wall clock is an explicit string parameter.
-/

namespace RepairReport

/-- Outcome of probing one source-image path: `missing` models
`os.path.exists(p) == False`; `broken` models a file that exists but whose
decode/processing raises; `valid w h` models a decodable raster whose
`img.width = w` and `img.height = h`. -/
inductive ImgSrc where
  | missing : ImgSrc
  | broken : ImgSrc
  | valid (w h : ℕ) : ImgSrc
deriving Repr, DecidableEq

/-- The file-system environment seen by one export call. -/
def Env : Type := String → ImgSrc

/-- One repair item: its id, description text, and ordered image path list. -/
structure Item where
  id : ℕ
  description : String
  images : List String
deriving Repr, DecidableEq

/-- Model of `os.path.basename` for the forward-slash paths the model uses:
the characters after the last slash. -/
def pathBase (p : String) : String :=
  String.mk (p.data.foldl (fun acc c => if c = '/' then [] else acc ++ [c]) [])

example : pathBase "dir/sub/b.jpg" = "b.jpg" := by rfl
example : pathBase "b.jpg" = "b.jpg" := by rfl

/-- Aspect-ratio-preserving fit used by `_export_excel_file`
(`repair_report_tool-11.py` lines 895-899):
`r = w / h; if r > maxW/maxH: (maxW, int(maxW / r)) else (int(maxH * r), maxH)`.
Python `int()` on a nonnegative float truncates, i.e. takes the floor. -/
def fitImage (w h maxW maxH : ℕ) : ℕ × ℕ :=
  if (maxW : ℚ) / (maxH : ℚ) < (w : ℚ) / (h : ℚ) then
    (maxW, (⌊(maxW : ℚ) / ((w : ℚ) / (h : ℚ))⌋).toNat)
  else
    ((⌊(maxH : ℚ) * ((w : ℚ) / (h : ℚ))⌋).toNat, maxH)

/-- Aspect-ratio-preserving fit used by `_process_pdf_image`
(`repair_report_tool-11.py` lines 1082-1087):
`if w/maxW > h/maxH: (maxW, int(maxW / r)) else (int(maxH * r), maxH)`. -/
def fitPdfImage (w h maxW maxH : ℕ) : ℕ × ℕ :=
  if (h : ℚ) / (maxH : ℚ) < (w : ℚ) / (maxW : ℚ) then
    (maxW, (⌊(maxW : ℚ) / ((w : ℚ) / (h : ℚ))⌋).toNat)
  else
    ((⌊(maxH : ℚ) * ((w : ℚ) / (h : ℚ))⌋).toNat, maxH)

example : fitImage 800 600 1200 900 = (1200, 900) := by norm_num [fitImage]; rfl
example : fitImage 7 8 1200 900 = (787, 900) := by norm_num [fitImage]; rfl
example : (round ((900 : ℚ) * ((7 : ℚ) / 8))).toNat = 788 := by norm_num [round_eq]; rfl

/-! ## PDF image grid (`_create_pdf_images`, tool-11 lines 1039-1077) -/

/-- One cell of a PDF image table.  `image src w h` models
`RL_Image(t, width=w, height=h, kind=proportional)` rendered from source
path `src`; `text s` models appending the plain string `s` as the cell. -/
inductive PdfCell where
  | image (src : String) (w h : ℚ)
  | text (s : String)
deriving Repr, DecidableEq

/-- The empty-string cell the grid loop appends for a missing or failed
image and for padding (`row.append("")`). -/
def blankCell : PdfCell := PdfCell.text ""

/-- The cell the multi-image loop body produces for path `p`:
`if os.path.exists(p): t = process(...); row.append(img if t else "") else
row.append("")`.  A `valid` source yields the square image cell, a missing
or undecodable source yields `""`. -/
def pdfCell (env : Env) (size : ℚ) (p : String) : PdfCell :=
  match env p with
  | ImgSrc.valid _ _ => PdfCell.image p size size
  | _ => blankCell

/-- Padding step `while len(row) < cols: row.append("")`. -/
def padTo (cols : ℕ) (row : List PdfCell) : List PdfCell :=
  row ++ List.replicate (cols - row.length) blankCell

/-- The row-chunking loop of `_create_pdf_images`: cells are appended to the
current row; the row is flushed (padded to `cols`) when it reaches `cols`
entries or the last cell has been placed. -/
def gridGo (cols : ℕ) (row : List PdfCell) : List PdfCell → List (List PdfCell)
  | [] => []
  | [c] => [padTo cols (row ++ [c])]
  | c :: c' :: rest =>
      if cols ≤ (row ++ [c]).length then
        padTo cols (row ++ [c]) :: gridGo cols [] (c' :: rest)
      else
        gridGo cols (row ++ [c]) (c' :: rest)

/-- A produced PDF image block: either the single centred cell
(`Table([[img]], colWidths=[170*mm])` with the image at 150x100) or the
rectangular multi-image grid. -/
inductive PdfBlock where
  | single (src : String)
  | grid (cols : ℕ) (rows : List (List PdfCell))
deriving Repr, DecidableEq

def blockCols : PdfBlock → ℕ
  | PdfBlock.single _ => 1
  | PdfBlock.grid c _ => c

def blockRows : PdfBlock → List (List PdfCell)
  | PdfBlock.single p => [[PdfCell.image p 150 100]]
  | PdfBlock.grid _ r => r

/-- Model of `_create_pdf_images(images, temp_files)` (tool-11 lines 1039-1077).
Sizes are in the code's millimetre units (`150*mm` is modelled as `150`).
The single-image branch returns a table only when the file exists and
`_process_pdf_image` succeeds, otherwise the function falls through and
returns `None`.  The multi-image branch chooses 2 columns for up to 4
images and 3 columns from 5 on, and returns the chunked grid when it is
nonempty. -/
def createPdfImages (images : List String) (env : Env) : Option PdfBlock :=
  match images with
  | [p] =>
      match env p with
      | ImgSrc.valid _ _ => some (PdfBlock.single p)
      | _ => none
  | _ =>
      let cols := if images.length ≤ 4 then 2 else 3
      let size : ℚ := if cols = 2 then 70 else 50
      let rows := gridGo cols [] (images.map (pdfCell env size))
      if rows.isEmpty then none else some (PdfBlock.grid cols rows)

example :
    createPdfImages ["a", "b", "c"] (fun _ => ImgSrc.valid 10 10) =
      some (PdfBlock.grid 2
        [[PdfCell.image "a" 70 70, PdfCell.image "b" 70 70],
         [PdfCell.image "c" 70 70, blankCell]]) := by rfl

example :
    createPdfImages ["a", "b", "c", "d", "e"] (fun _ => ImgSrc.valid 10 10) =
      some (PdfBlock.grid 3
        [[PdfCell.image "a" 50 50, PdfCell.image "b" 50 50, PdfCell.image "c" 50 50],
         [PdfCell.image "d" 50 50, PdfCell.image "e" 50 50, blankCell]]) := by rfl

/-! ## PDF story (`_export_pdf_file`, `_create_text_only_pdf_table`,
`_create_optimized_pdf_layout`, tool-11 lines 933-1037) -/

/-- A flowable appended to the PDF `story`. -/
inductive PdfElem where
  | para (s : String)
  | block (b : PdfBlock)
  | keep (content : List PdfElem)
  | spacer (h : ℚ)
  | pageBreak
deriving Repr

/-- The `content` list built for one item in `_create_optimized_pdf_layout`:
the numbered title paragraph, then the image element (or the failure /
no-image paragraph). -/
def sectionContent (env : Env) (idx : ℕ) (it : Item) : List PdfElem :=
  [PdfElem.para (toString (idx + 1) ++ ". " ++ it.description)] ++
    (if it.images.isEmpty then [PdfElem.para "暂无图片"]
     else match createPdfImages it.images env with
       | some b => [PdfElem.block b]
       | none => [PdfElem.para "图片加载失败"])

/-- The item loop of `_create_optimized_pdf_layout` (tool-11 lines
1006-1030), with `idx` the enumeration counter.  The first item's content
is extended directly; later items get a 15pt spacer and, when the item has
at most 3 images, a `KeepTogether` wrapper.  After every non-final item the
loop emits a `PageBreak` when the next item has more than 4 images or
`(idx+1) % 3 == 0`, and a 20pt spacer otherwise. -/
def layoutGo (env : Env) (idx : ℕ) : List Item → List PdfElem
  | [] => []
  | it :: rest =>
      ((if idx = 0 then sectionContent env idx it
        else
          PdfElem.spacer 15 ::
            (if it.images.length ≤ 3 then [PdfElem.keep (sectionContent env idx it)]
             else sectionContent env idx it)) ++
        (match rest with
         | [] => []
         | nxt :: _ =>
             if 4 < nxt.images.length ∨ (idx + 1) % 3 = 0 then [PdfElem.pageBreak]
             else [PdfElem.spacer 20])) ++
      layoutGo env (idx + 1) rest

/-- Data rows of `_create_text_only_pdf_table`: one `[str(i+1), description]`
row per item, with `i` the enumeration counter. -/
def textRowsGo (i : ℕ) : List Item → List (List String)
  | [] => []
  | it :: rest => [toString (i + 1), it.description] :: textRowsGo (i + 1) rest

/-- The full table data of `_create_text_only_pdf_table` (tool-11 lines
979-1001): a header row followed by one row per item. -/
def textOnlyRows (items : List Item) : List (List String) :=
  ["序号", "维修内容描述"] :: textRowsGo 0 items

/-- Body of the generated PDF: the compact text-only fallback table, or the
flowable item story. -/
inductive PdfBody where
  | textTable (rows : List (List String))
  | flow (story : List PdfElem)
deriving Repr

/-- The generated PDF document, by field:
title paragraph, timestamp subtitle paragraph (`"生成时间：" + now`) and the
body chosen by `has_images = any(it.get(images) for it in items)` in
`_export_pdf_file` (tool-11 lines 947-956). -/
structure PdfDoc where
  title : String
  subtitle : String
  body : PdfBody
deriving Repr

/-- Model of `_export_pdf_file` (tool-11 lines 933-958), with the formatted
`datetime.now()` string passed in as `now`. -/
def exportPdf (title : String) (items : List Item) (env : Env) (now : String) : PdfDoc :=
  { title := if title = "" then "维修检查报告" else title
    subtitle := "生成时间：" ++ now
    body :=
      if items.any (fun it => !it.images.isEmpty) then PdfBody.flow (layoutGo env 0 items)
      else PdfBody.textTable (textOnlyRows items) }

/-! ## Excel export (`_export_excel_file`, tool-11 lines 858-931) -/

/-- Content of one image cell of the sheet.  `embedded` records the fitted
pixel size from the 1200x900 fit and the displayed size
(`excel_img.width = new_w * 0.32`, `excel_img.height = new_h * 0.32`);
`textCell` records the placeholder string written into the cell; `blank`
is a cell the loop never touched. -/
inductive ExcelCell where
  | embedded (src : String) (fitW fitH : ℕ) (dispW dispH : ℚ)
  | textCell (s : String)
  | blank
deriving Repr, DecidableEq

/-- The cell produced for image path `p` in the per-image `try` block:
a nonexistent file writes `"图片文件不存在:\n" + basename`, the 1200x900
fitted image is embedded at scale 0.32 on success, and any processing
exception writes `"图片处理失败:\n" + basename`. -/
def excelCellOf (env : Env) (p : String) : ExcelCell :=
  match env p with
  | ImgSrc.missing => ExcelCell.textCell ("图片文件不存在:\n" ++ pathBase p)
  | ImgSrc.broken => ExcelCell.textCell ("图片处理失败:\n" ++ pathBase p)
  | ImgSrc.valid w h =>
      ExcelCell.embedded p (fitImage w h 1200 900).1 (fitImage w h 1200 900).2
        (((fitImage w h 1200 900).1 : ℚ) * (8 / 25))
        (((fitImage w h 1200 900).2 : ℚ) * (8 / 25))

/-- The running `row_max_height`: starts at 40 and, for every successfully embedded
image, takes the max with `new_h * 0.32 * 0.8` (tool-11 lines 886, 910). -/
def excelRowHeight (env : Env) (shown : List String) : ℚ :=
  shown.foldl
    (fun acc p =>
      match env p with
      | ImgSrc.valid w h => max acc (((fitImage w h 1200 900).2 : ℚ) * (8 / 25) * (4 / 5))
      | _ => acc)
    40

/-- One data row of the sheet: the 1-based index written to column 1, the
description in column 2, the image cells of columns `3..2+maxIPR` (the loop
runs over `images[:max_images_per_row]`; the untouched tail stays blank),
and the row height set afterwards. -/
structure ExcelRow where
  index : ℕ
  description : String
  imageCells : List ExcelCell
  height : ℚ
deriving Repr, DecidableEq

/-- The data row built for the item enumerated at offset `i` (worksheet row
`i + 5`, so the index cell holds `row_idx - 4 = i + 1`). -/
def excelRowOf (env : Env) (maxIPR : ℕ) (i : ℕ) (it : Item) : ExcelRow :=
  let shown := it.images.take maxIPR
  { index := i + 1
    description := it.description
    imageCells := shown.map (excelCellOf env) ++
      List.replicate (maxIPR - shown.length) ExcelCell.blank
    height := excelRowHeight env shown }

/-- The loop `for row_idx, item in enumerate(self.items, 5)`, with `i = row_idx - 5`. -/
def excelRowsGo (env : Env) (maxIPR : ℕ) (i : ℕ) : List Item → List ExcelRow
  | [] => []
  | it :: rest => excelRowOf env maxIPR i it :: excelRowsGo env maxIPR (i + 1) rest

/-- Anchor cells of `ws.add_image(excel_img, chr(64 + col) + str(row_idx))`
for one row: a pair `(64 + col, row_idx)` per successfully embedded image,
with `col = 3 + img_idx`. -/
def excelAnchorsRow (env : Env) (rowIdx col : ℕ) : List String → List (ℕ × ℕ)
  | [] => []
  | p :: rest =>
      (match env p with
       | ImgSrc.valid _ _ => [(64 + col, rowIdx)]
       | _ => []) ++ excelAnchorsRow env rowIdx (col + 1) rest

/-- All image anchors of the sheet, row by row (`row_idx` starts at 5,
`col` at 3). -/
def excelAnchorsGo (env : Env) (maxIPR rowIdx : ℕ) : List Item → List (ℕ × ℕ)
  | [] => []
  | it :: rest =>
      excelAnchorsRow env rowIdx 3 (it.images.take maxIPR) ++
        excelAnchorsGo env maxIPR (rowIdx + 1) rest

/-- The generated worksheet, by field: the `A1` title cell, the `A2`
timestamp subtitle cell, the shared end column code of the two merges
`A1:{chr(64+total_cols)}1` / `A2:..2`, the row-4 header cells, the data
rows, the column widths keyed by column-letter code
(column A to width 8, B to 45, and `chr(67+i)` to 52), the `(row, col)` pairs given a thin
border, and the image anchor cells. -/
structure ExcelDoc where
  titleCell : String
  subtitleCell : String
  mergedEndCode : ℕ
  headerCells : List String
  dataRows : List ExcelRow
  colWidths : List (ℕ × ℚ)
  borderCells : List (ℕ × ℕ)
  anchors : List (ℕ × ℕ)
deriving Repr, DecidableEq

/-- Model of `_export_excel_file` (tool-11 lines 858-931), with the formatted
`datetime.now()` string passed in as `now` and the file system as `env`. -/
def exportExcel (title : String) (items : List Item) (maxIPR : ℕ)
    (env : Env) (now : String) : ExcelDoc :=
  let totalCols := 2 + maxIPR
  { titleCell := if title = "" then "维修检查报告" else title
    subtitleCell := "生成时间：" ++ now
    mergedEndCode := 64 + totalCols
    headerCells := ["序号", "维修内容描述"] ++
      (List.range maxIPR).map (fun i => "图片" ++ toString (i + 1))
    dataRows := excelRowsGo env maxIPR 0 items
    colWidths := [(65, 8), (66, 45)] ++ (List.range maxIPR).map (fun i => (67 + i, 52))
    borderCells :=
      (List.range' 4 (items.length + 1)).flatMap
        (fun r => (List.range' 1 totalCols).map (fun c => (r, c)))
    anchors := excelAnchorsGo env maxIPR 5 items }

example :
    (exportExcel "T" [⟨1, "d", ["x"]⟩] 2 (fun _ => ImgSrc.missing) "now").dataRows =
      [{ index := 1, description := "d",
         imageCells := [ExcelCell.textCell ("图片文件不存在:\n" ++ "x"), ExcelCell.blank],
         height := 40 }] := by rfl

/-! ## Item-collection state machine (tool-11: `add_item`,
`delete_selected_item`, `add_images`, `delete_image`, `clear_images`,
`new_project`, `open_project`, `update_max_images_per_row`) -/

/-- The mutable application state the operations touch. -/
structure AppState where
  items : List Item
  currentItemId : ℕ
  maxImagesPerRow : ℕ
deriving Repr, DecidableEq

/-- Largest image count over a list of items: the `max(...)` of the
generator, taken as `0` on an empty list. -/
def maxCount (its : List Item) : ℕ :=
  (its.map (fun it => it.images.length)).foldr max 0

/-- Model of `update_max_images_per_row` (tool-11 lines 721-723):
`if self.items: self.max_images_per_row = max(image counts) or 1`.
Nothing happens on an empty item list; Python's `or 1` turns a maximum of
`0` into `1`. -/
def updateMaxImagesPerRow (s : AppState) : AppState :=
  if s.items.isEmpty then s
  else { s with maxImagesPerRow := if maxCount s.items = 0 then 1 else maxCount s.items }

/-- Every operation that changes the item collection.  Single-selection
forms of the handlers are modelled; `validPath` plays
`_validate_image_file` for `add_images`, and `open_project` carries the
items and the stored `max_images_per_row` read from the project file. -/
inductive Op where
  | addItem
  | deleteItem (idx : ℕ)
  | addImages (idx : ℕ) (paths : List String) (validPath : String → Bool)
  | deleteImage (idx : ℕ) (path : String)
  | clearImages (idx : ℕ)
  | newProject
  | openProject (loaded : List Item) (fileMax : ℕ)

/-- The `add_images` inner loop: append each path that validates and is not
already present (tool-11 lines 757-759). -/
def addImagesTo (it : Item) (paths : List String) (validPath : String → Bool) : Item :=
  paths.foldl
    (fun cur p =>
      if validPath p ∧ ¬ p ∈ cur.images then { cur with images := cur.images ++ [p] }
      else cur)
    it

/-- Replace the item at `idx` using `f`; out-of-range indices leave the
list unchanged (the GUI only passes indices of selected rows). -/
def modifyItem (its : List Item) (idx : ℕ) (f : Item → Item) : List Item :=
  its.mapIdx (fun i it => if i = idx then f it else it)

/-- Effect of each handler on `(items, current_item_id, max_images_per_row)`.
Every handler ends in `refresh_item_list`, whose last step is
`update_max_images_per_row` (tool-11 line 719); `open_project` first
overwrites `max_images_per_row` with the stored file value (line 1125). -/
def applyOp (op : Op) (s : AppState) : AppState :=
  match op with
  | Op.addItem =>
      let nid := s.currentItemId + 1
      updateMaxImagesPerRow
        { s with currentItemId := nid,
                 items := s.items ++
                   [⟨nid, "维修项目 " ++ toString (s.items.length + 1), []⟩] }
  | Op.deleteItem idx =>
      updateMaxImagesPerRow
        (if idx < s.items.length then { s with items := s.items.eraseIdx idx } else s)
  | Op.addImages idx paths validPath =>
      updateMaxImagesPerRow
        { s with items := modifyItem s.items idx (fun it => addImagesTo it paths validPath) }
  | Op.deleteImage idx p =>
      updateMaxImagesPerRow
        { s with items := modifyItem s.items idx (fun it => { it with images := it.images.erase p }) }
  | Op.clearImages idx =>
      updateMaxImagesPerRow
        { s with items := modifyItem s.items idx (fun it => { it with images := [] }) }
  | Op.newProject =>
      if s.items.isEmpty then s
      else updateMaxImagesPerRow { s with items := [], currentItemId := 0 }
  | Op.openProject loaded fileMax =>
      updateMaxImagesPerRow
        { items := loaded,
          currentItemId := (loaded.map (fun it => it.id)).foldr max 0,
          maxImagesPerRow := fileMax }

/-- The invariant claimed for `max_images_per_row`, written from the spec's
words: the maximum image count over the items, or `1` when the list is
empty or every item has zero images. -/
def specMaxImages (its : List Item) : ℕ :=
  if its.isEmpty ∨ its.all (fun it => it.images.isEmpty) then 1 else maxCount its

/-! ## Claim-side reconstructions and document-shape helpers -/

/-- The PDF item flow as claim C5 states it: between consecutive sections a
page break exactly when the next item has more than 4 images or the current
1-based position is a multiple of 3 (a 20pt spacer otherwise), sections
after the first preceded by a 15pt spacer, and *every* section whose item
has at most 3 images wrapped in `KeepTogether`. -/
def statedStoryGo (env : Env) (idx : ℕ) : List Item → List PdfElem
  | [] => []
  | it :: rest =>
      ((if idx = 0 then [] else [PdfElem.spacer 15]) ++
        (if it.images.length ≤ 3 then [PdfElem.keep (sectionContent env idx it)]
         else sectionContent env idx it) ++
        (match rest with
         | [] => []
         | nxt :: _ =>
             if 4 < nxt.images.length ∨ (idx + 1) % 3 = 0 then [PdfElem.pageBreak]
             else [PdfElem.spacer 20])) ++
      statedStoryGo env (idx + 1) rest

/-- The amended form of claim C5: identical, except that only sections
*after the first* with at most 3 images are wrapped in `KeepTogether`
(the first item's content is always emitted unwrapped). -/
def amendedStoryGo (env : Env) (idx : ℕ) : List Item → List PdfElem
  | [] => []
  | it :: rest =>
      ((if idx = 0 then [] else [PdfElem.spacer 15]) ++
        (if idx ≠ 0 ∧ it.images.length ≤ 3 then [PdfElem.keep (sectionContent env idx it)]
         else sectionContent env idx it) ++
        (match rest with
         | [] => []
         | nxt :: _ =>
             if 4 < nxt.images.length ∨ (idx + 1) % 3 = 0 then [PdfElem.pageBreak]
             else [PdfElem.spacer 20])) ++
      amendedStoryGo env (idx + 1) rest

/-- An Excel document with its timestamp subtitle blanked: what claim C9
calls the structure of the document. -/
def excelShape (d : ExcelDoc) : ExcelDoc := { d with subtitleCell := "" }

/-- A PDF document with its timestamp subtitle blanked. -/
def pdfShape (d : PdfDoc) : PdfDoc := { d with subtitle := "" }

/-- Every single-letter column code the Excel export computes with `chr`:
the merge end column `chr(64 + total_cols)`, the width keys
(the literal A and B keys and `chr(67 + i)`), and the image anchor columns
`chr(64 + col)`. -/
def excelColCodes (d : ExcelDoc) : List ℕ :=
  d.mergedEndCode :: (d.colWidths.map Prod.fst ++ d.anchors.map Prod.fst)

/-- A cell's visible text, when it has one. -/
def cellText : PdfCell → Option String
  | PdfCell.text s => some s
  | PdfCell.image _ _ _ => none

/-- Proposition that `c` is a textual cell whose text mentions the string `b` (claim C6's
"textual placeholder naming the failed file"). -/
def namesFile (c : PdfCell) (b : String) : Prop :=
  ∃ s pre post, cellText c = some s ∧ s = pre ++ b ++ post

/-- The scaled display heights (`new_h * 0.32 * 0.8`) of the successfully
embedded images among `shown`. -/
def embedHeights (env : Env) (shown : List String) : List ℚ :=
  (shown.filterMap (fun p =>
      match env p with
      | ImgSrc.valid w h => some ((fitImage w h 1200 900).2)
      | _ => none)).map (fun fh : ℕ => (fh : ℚ) * (8 / 25) * (4 / 5))


/-! ## Helper lemmas -/

lemma floor_toNat_cast_eq {x : ℚ} (hx : 0 ≤ x) : ((⌊x⌋.toNat : ℕ) : ℚ) = (⌊x⌋ : ℚ) := by
  have h0 : (0 : ℤ) ≤ ⌊x⌋ := Int.floor_nonneg.mpr hx
  exact_mod_cast congrArg (fun z : ℤ => (z : ℚ)) (Int.toNat_of_nonneg h0)

lemma floor_toNat_le_of_le {x : ℚ} {n : ℕ} (h : x ≤ (n : ℚ)) : ⌊x⌋.toNat ≤ n := by
  have : ⌊x⌋ ≤ ⌊(n : ℚ)⌋ := Int.floor_mono h
  simp only [Int.floor_natCast] at this
  exact Int.toNat_le.mpr this

lemma floor_toNat_close {x : ℚ} (hx : 0 ≤ x) : |((⌊x⌋.toNat : ℕ) : ℚ) - x| < 1 := by
  rw [floor_toNat_cast_eq hx, abs_sub_lt_iff]
  constructor
  · have := Int.floor_le x
    linarith
  · have := Int.lt_floor_add_one x
    linarith

/-! ## Claim C1: aspect-ratio-preserving fit -/

/-- Whenever the height is the binding side, the claimed `round()` of the
binding side scaled by the ratio disagrees with the code's `int()`
truncation at source size 7x8 against the 1200x900 budget: the code fits it
to `(787, 900)` while `round(900 * 7/8) = round(787.5) = 788`. -/
theorem fit_round_counterexample :
    fitImage 7 8 1200 900 = (787, 900) ∧
      (round ((900 : ℚ) * ((7 : ℚ) / 8))).toNat = 788 := by
  constructor
  · norm_num [fitImage]; rfl
  · norm_num [round_eq]; rfl

/-- C1 (amended: the non-binding side is `int()`-truncated, i.e. floored,
not `round()`ed).  For positive source sizes and a positive bounding box,
the fit keeps both sides inside the box, chooses the binding side by
comparing `w/h` with `maxW/maxH` (width binding on `maxW/maxH < w/h`,
height binding otherwise), computes the non-binding side as the floor of
the binding side scaled by the ratio, and preserves the aspect ratio up to
that floor: an exact real solution `(W, H)` of the same ratio inside the
box lies within 1 of the output on each side.  The PDF fit
`_process_pdf_image` computes the same function. -/
theorem fitImage_spec (w h maxW maxH : ℕ)
    (hw : 0 < w) (hh : 0 < h) (hW : 0 < maxW) (hH : 0 < maxH) :
    (fitImage w h maxW maxH).1 ≤ maxW ∧
    (fitImage w h maxW maxH).2 ≤ maxH ∧
    ((maxW : ℚ) / maxH < (w : ℚ) / h →
        fitImage w h maxW maxH = (maxW, (⌊(maxW : ℚ) * h / w⌋).toNat)) ∧
    ((w : ℚ) / h ≤ (maxW : ℚ) / maxH →
        fitImage w h maxW maxH = ((⌊(maxH : ℚ) * w / h⌋).toNat, maxH)) ∧
    (∃ W H : ℚ, 0 < H ∧ W / H = (w : ℚ) / h ∧ W ≤ maxW ∧ H ≤ maxH ∧
        |((fitImage w h maxW maxH).1 : ℚ) - W| < 1 ∧
        |((fitImage w h maxW maxH).2 : ℚ) - H| < 1) ∧
    fitPdfImage w h maxW maxH = fitImage w h maxW maxH := by
  have hwq : (0 : ℚ) < (w : ℚ) := by exact_mod_cast hw
  have hhq : (0 : ℚ) < (h : ℚ) := by exact_mod_cast hh
  have hWq : (0 : ℚ) < (maxW : ℚ) := by exact_mod_cast hW
  have hHq : (0 : ℚ) < (maxH : ℚ) := by exact_mod_cast hH
  have hr : (0 : ℚ) < (w : ℚ) / h := div_pos hwq hhq
  have hcond : ((h : ℚ) / (maxH : ℚ) < (w : ℚ) / (maxW : ℚ)) ↔
      ((maxW : ℚ) / maxH < (w : ℚ) / h) := by
    rw [div_lt_div_iff₀ hHq hWq, div_lt_div_iff₀ hHq hhq]
    constructor <;> intro hx <;> linarith
  have hpdf : fitPdfImage w h maxW maxH = fitImage w h maxW maxH := by
    unfold fitPdfImage fitImage
    by_cases hc : (maxW : ℚ) / maxH < (w : ℚ) / h
    · rw [if_pos hc, if_pos (hcond.mpr hc)]
    · rw [if_neg hc, if_neg (fun hx => hc (hcond.mp hx))]
  by_cases hc : (maxW : ℚ) / maxH < (w : ℚ) / h
  · -- width is binding
    have hfit : fitImage w h maxW maxH = (maxW, (⌊(maxW : ℚ) / ((w : ℚ) / h)⌋).toNat) := by
      unfold fitImage
      rw [if_pos hc]
    have hc' : (maxW : ℚ) * h < w * maxH := (div_lt_div_iff₀ hHq hhq).mp hc
    set H : ℚ := (maxW : ℚ) / ((w : ℚ) / h) with hHdef
    have hHpos : 0 < H := div_pos hWq hr
    have hHle : H ≤ (maxH : ℚ) := by
      rw [hHdef, div_le_iff₀ hr, ← mul_div_assoc, le_div_iff₀ hhq]
      linarith
    refine ⟨?_, ?_, ?_, ?_, ?_, hpdf⟩
    · rw [hfit]
    · rw [hfit]
      exact floor_toNat_le_of_le hHle
    · intro _
      rw [hfit, hHdef, div_div_eq_mul_div]
    · intro hx
      exact absurd hc (not_lt.mpr hx)
    · refine ⟨maxW, H, hHpos, ?_, le_refl _, hHle, ?_, ?_⟩
      · rw [hHdef, div_div_eq_mul_div, mul_comm, mul_div_assoc,
          div_self (ne_of_gt hWq), mul_one]
      · rw [hfit]
        simp
      · rw [hfit]
        exact floor_toNat_close (le_of_lt hHpos)
  · -- height is binding
    have hfit : fitImage w h maxW maxH = ((⌊(maxH : ℚ) * ((w : ℚ) / h)⌋).toNat, maxH) := by
      unfold fitImage
      rw [if_neg hc]
    have hc' : (w : ℚ) * maxH ≤ maxW * h := by
      rw [not_lt] at hc
      exact (div_le_div_iff₀ hhq hHq).mp hc
    set W : ℚ := (maxH : ℚ) * ((w : ℚ) / h) with hWdef
    have hWpos : 0 < W := mul_pos hHq hr
    have hWle : W ≤ (maxW : ℚ) := by
      rw [hWdef, ← mul_div_assoc, div_le_iff₀ hhq]
      linarith
    refine ⟨?_, ?_, ?_, ?_, ?_, hpdf⟩
    · rw [hfit]
      exact floor_toNat_le_of_le hWle
    · rw [hfit]
    · intro hx
      exact absurd hx (not_lt.mpr (le_of_not_lt hc))
    · intro _
      rw [hfit, hWdef, ← mul_div_assoc]
    · refine ⟨W, maxH, hHq, ?_, hWle, le_refl _, ?_, ?_⟩
      · rw [hWdef, mul_comm, mul_div_assoc, div_self (ne_of_gt hHq), mul_one]
      · rw [hfit]
        exact floor_toNat_close (le_of_lt hWpos)
      · rw [hfit]
        simp

/-- Witness for `fitImage_spec` at source 800x600 inside 1200x900. -/
theorem fitImage_spec_witness :
    (fitImage 800 600 1200 900).1 ≤ 1200 ∧
    (fitImage 800 600 1200 900).2 ≤ 900 ∧
    ((1200 : ℚ) / 900 < (800 : ℚ) / 600 →
        fitImage 800 600 1200 900 = (1200, (⌊(1200 : ℚ) * 600 / 800⌋).toNat)) ∧
    ((800 : ℚ) / 600 ≤ (1200 : ℚ) / 900 →
        fitImage 800 600 1200 900 = ((⌊(900 : ℚ) * 800 / 600⌋).toNat, 900)) ∧
    (∃ W H : ℚ, 0 < H ∧ W / H = (800 : ℚ) / 600 ∧ W ≤ 1200 ∧ H ≤ 900 ∧
        |((fitImage 800 600 1200 900).1 : ℚ) - W| < 1 ∧
        |((fitImage 800 600 1200 900).2 : ℚ) - H| < 1) ∧
    fitPdfImage 800 600 1200 900 = fitImage 800 600 1200 900 :=
  fitImage_spec 800 600 1200 900 (by decide) (by decide) (by decide) (by decide)

/-! ## Claim C2: PDF grid shape -/

lemma padTo_length {cols : ℕ} {r : List PdfCell} (h : r.length ≤ cols) :
    (padTo cols r).length = cols := by
  simp only [padTo, List.length_append, List.length_replicate]
  omega

lemma gridGo_row_length {cols : ℕ} (hcols : 0 < cols) :
    ∀ (cells row : List PdfCell), row.length < cols →
      ∀ r ∈ gridGo cols row cells, r.length = cols := by
  intro cells
  induction cells with
  | nil => intro row _ r hr; simp [gridGo] at hr
  | cons c rest ih =>
      intro row hrow r hr
      cases rest with
      | nil =>
          simp only [gridGo, List.mem_singleton] at hr
          subst hr
          exact padTo_length (by simp; omega)
      | cons c' rest' =>
          simp only [gridGo] at hr
          by_cases hflush : cols ≤ (row ++ [c]).length
          · rw [if_pos hflush] at hr
            rcases List.mem_cons.mp hr with h1 | h2
            · subst h1
              exact padTo_length (by simp; omega)
            · exact ih [] (by simpa using hcols) r h2
          · rw [if_neg hflush] at hr
            simp only [List.length_append, List.length_singleton] at hflush
            exact ih (row ++ [c]) (by simp; omega) r hr

lemma padCount_congr {cols a b : ℕ} (h : a = b) :
    cols * ((a + cols - 1) / cols) - a = cols * ((b + cols - 1) / cols) - b := by rw [h]

lemma gridGo_length {cols : ℕ} (hcols : 0 < cols) :
    ∀ (cells row : List PdfCell), row.length < cols → cells ≠ [] →
      (gridGo cols row cells).length = (row.length + cells.length + cols - 1) / cols := by
  intro cells
  induction cells with
  | nil => intro row _ hne; exact absurd rfl hne
  | cons c rest ih =>
      intro row hrow _
      cases rest with
      | nil =>
          show (1 : ℕ) = (row.length + [c].length + cols - 1) / cols
          rw [show row.length + [c].length + cols - 1 = row.length + cols from by
              simp only [List.length_singleton]; omega,
            Nat.add_div_right _ hcols, Nat.div_eq_of_lt hrow]
      | cons c' rest' =>
          show (if cols ≤ (row ++ [c]).length then
                  padTo cols (row ++ [c]) :: gridGo cols [] (c' :: rest')
                else gridGo cols (row ++ [c]) (c' :: rest')).length = _
          by_cases hflush : cols ≤ (row ++ [c]).length
          · rw [if_pos hflush]
            simp only [List.length_append, List.length_singleton] at hflush
            have hrowlen : row.length + 1 = cols := by omega
            rw [List.length_cons, ih [] (by simpa using hcols) (by simp)]
            simp only [List.length_nil, List.length_cons, Nat.zero_add]
            rw [show row.length + (rest'.length + 1 + 1) + cols - 1 =
                rest'.length + 1 + cols - 1 + cols from by omega,
              Nat.add_div_right _ hcols]
          · rw [if_neg hflush]
            simp only [List.length_append, List.length_singleton] at hflush
            rw [ih (row ++ [c]) (by simp; omega) (by simp)]
            rw [show (row ++ [c]).length + (c' :: rest').length + cols - 1 =
                row.length + (c :: c' :: rest').length + cols - 1 from by
                  simp only [List.length_append, List.length_singleton, List.length_cons,
                    List.length_nil]
                  omega]

lemma gridGo_flatten {cols : ℕ} (hcols : 0 < cols) :
    ∀ (cells row : List PdfCell), row.length < cols → cells ≠ [] →
      (gridGo cols row cells).flatten = row ++ cells ++
        List.replicate
          (cols * ((row.length + cells.length + cols - 1) / cols) -
            (row.length + cells.length)) blankCell := by
  intro cells
  induction cells with
  | nil => intro row _ hne; exact absurd rfl hne
  | cons c rest ih =>
      intro row hrow _
      cases rest with
      | nil =>
          show (padTo cols (row ++ [c])) ++ List.flatten [] = _
          rw [show row.length + [c].length + cols - 1 = row.length + cols from by
              simp only [List.length_singleton]; omega,
            Nat.add_div_right _ hcols, Nat.div_eq_of_lt hrow]
          simp only [List.flatten_nil, List.append_nil, padTo, List.length_append,
            List.length_singleton, Nat.zero_add, Nat.mul_one, List.append_assoc,
            List.singleton_append, List.length_cons]
      | cons c' rest' =>
          show (if cols ≤ (row ++ [c]).length then
                  padTo cols (row ++ [c]) :: gridGo cols [] (c' :: rest')
                else gridGo cols (row ++ [c]) (c' :: rest')).flatten = _
          by_cases hflush : cols ≤ (row ++ [c]).length
          · rw [if_pos hflush]
            simp only [List.length_append, List.length_singleton] at hflush
            have hrowlen : row.length + 1 = cols := by omega
            have hpad : padTo cols (row ++ [c]) = row ++ [c] := by
              simp [padTo]
              omega
            rw [List.flatten_cons, hpad, ih [] (by simpa using hcols) (by simp)]
            have harith :
                cols * ((row.length + (c :: c' :: rest').length + cols - 1) / cols) -
                    (row.length + (c :: c' :: rest').length) =
                cols * ((([] : List PdfCell).length + (c' :: rest').length + cols - 1) / cols) -
                    (([] : List PdfCell).length + (c' :: rest').length) := by
              simp only [List.length_cons, List.length_nil, Nat.zero_add]
              rw [show row.length + (rest'.length + 1 + 1) + cols - 1 =
                  rest'.length + 1 + cols - 1 + cols from by omega,
                Nat.add_div_right _ hcols]
              generalize (rest'.length + 1 + cols - 1) / cols = D
              have hms : cols * (D + 1) = cols * D + cols := by ring
              rw [hms]
              generalize cols * D = X
              omega
            rw [harith]
            simp [List.append_assoc]
          · rw [if_neg hflush]
            simp only [List.length_append, List.length_singleton] at hflush
            rw [ih (row ++ [c]) (by simp; omega) (by simp)]
            rw [padCount_congr (show (row ++ [c]).length + (c' :: rest').length =
                row.length + (c :: c' :: rest').length from by simp; omega)]
            simp [List.append_assoc]

/-- Full characterisation of the block `_create_pdf_images` produces. -/
lemma createPdfImages_spec (images : List String) (env : Env) (b : PdfBlock)
    (hb : createPdfImages images env = some b) :
    blockCols b = (if images.length = 1 then 1 else if images.length ≤ 4 then 2 else 3) ∧
    (∀ r ∈ blockRows b, r.length = blockCols b) ∧
    (blockRows b).length = (images.length + blockCols b - 1) / blockCols b ∧
    (2 ≤ images.length →
      (blockRows b).flatten =
        images.map (pdfCell env (if images.length ≤ 4 then (70 : ℚ) else 50)) ++
          List.replicate (blockCols b * (blockRows b).length - images.length) blankCell) := by
  cases images with
  | nil => simp [createPdfImages, gridGo] at hb
  | cons p rest =>
      cases rest with
      | nil =>
          cases henv : env p with
          | valid w h =>
              simp only [createPdfImages, henv, Option.some.injEq] at hb
              subst hb
              refine ⟨by simp [blockCols], by simp [blockRows, blockCols], ?_, ?_⟩
              · simp [blockRows, blockCols]
              · intro h2
                simp at h2
          | missing => simp [createPdfImages, henv] at hb
          | broken => simp [createPdfImages, henv] at hb
      | cons q rest' =>
          simp only [createPdfImages] at hb
          set C : ℕ := if (p :: q :: rest').length ≤ 4 then 2 else 3 with hC
          set S : ℚ := if C = 2 then (70 : ℚ) else 50 with hS
          set cells : List PdfCell := List.map (pdfCell env S) (p :: q :: rest') with hcells
          have hCpos : 0 < C := by
            rw [hC]
            split <;> norm_num
          have hcne : cells ≠ [] := by simp [hcells]
          have hclen : cells.length = (p :: q :: rest').length := by
            simp [hcells]
          by_cases hemp : (gridGo C [] cells).isEmpty = true
          · rw [if_pos hemp] at hb
            exact absurd hb (by simp)
          · rw [if_neg hemp] at hb
            have hbval : b = PdfBlock.grid C (gridGo C [] cells) :=
              ((Option.some.injEq _ _).mp hb).symm
            subst hbval
            have hlen := gridGo_length hCpos cells [] (by simpa using hCpos) hcne
            simp only [List.length_nil, Nat.zero_add] at hlen
            have hflat := gridGo_flatten hCpos cells [] (by simpa using hCpos) hcne
            simp only [List.length_nil, Nat.zero_add, List.nil_append] at hflat
            refine ⟨?_, ?_, ?_, ?_⟩
            · simp only [blockCols]
              rw [if_neg (by simp)]
            · intro r hr
              simp only [blockCols, blockRows] at hr ⊢
              exact gridGo_row_length hCpos cells [] (by simpa using hCpos) r hr
            · simp only [blockCols, blockRows]
              rw [hlen, hclen]
            · intro _
              simp only [blockCols, blockRows]
              rw [hflat, hlen, hclen]
              have hSval : S = if (p :: q :: rest').length ≤ 4 then (70 : ℚ) else 50 := by
                rw [hS, hC]
                by_cases h4 : (p :: q :: rest').length ≤ 4
                · rw [if_pos h4, if_pos h4, if_pos rfl]
                · rw [if_neg h4, if_neg h4, if_neg (by norm_num)]
              rw [hcells, hSval]

/-- C2.  Whenever `_create_pdf_images` produces an image block for `n ≥ 1`
images, it uses 1 column for `n = 1`, 2 columns for `2 ≤ n ≤ 4` and 3
columns for `n ≥ 5`; every produced row has exactly the chosen column
count; the number of rows is `⌈n / columns⌉`; and for `n ≥ 2` the flattened
grid is the image cells in list order followed by blank padding cells, so
rows are filled left to right, top to bottom, and the final row is padded
to full width. -/
theorem pdf_grid_plan (images : List String) (env : Env) (b : PdfBlock)
    (hb : createPdfImages images env = some b) :
    blockCols b = (if images.length = 1 then 1 else if images.length ≤ 4 then 2 else 3) ∧
    (∀ r ∈ blockRows b, r.length = blockCols b) ∧
    (blockRows b).length = (images.length + blockCols b - 1) / blockCols b ∧
    (2 ≤ images.length →
      (blockRows b).flatten =
        images.map (pdfCell env (if images.length ≤ 4 then (70 : ℚ) else 50)) ++
          List.replicate (blockCols b * (blockRows b).length - images.length) blankCell) :=
  createPdfImages_spec images env b hb

/-- Witness for `pdf_grid_plan`: five readable images produce the 3-column,
2-row grid with one blank padding cell. -/
theorem pdf_grid_plan_witness :
    blockCols (PdfBlock.grid 3
        [[PdfCell.image "a" 50 50, PdfCell.image "b" 50 50, PdfCell.image "c" 50 50],
         [PdfCell.image "d" 50 50, PdfCell.image "e" 50 50, blankCell]]) =
      (if (["a", "b", "c", "d", "e"] : List String).length = 1 then 1
       else if (["a", "b", "c", "d", "e"] : List String).length ≤ 4 then 2 else 3) ∧
    (∀ r ∈ blockRows (PdfBlock.grid 3
        [[PdfCell.image "a" 50 50, PdfCell.image "b" 50 50, PdfCell.image "c" 50 50],
         [PdfCell.image "d" 50 50, PdfCell.image "e" 50 50, blankCell]]),
      r.length = blockCols (PdfBlock.grid 3
        [[PdfCell.image "a" 50 50, PdfCell.image "b" 50 50, PdfCell.image "c" 50 50],
         [PdfCell.image "d" 50 50, PdfCell.image "e" 50 50, blankCell]])) ∧
    (blockRows (PdfBlock.grid 3
        [[PdfCell.image "a" 50 50, PdfCell.image "b" 50 50, PdfCell.image "c" 50 50],
         [PdfCell.image "d" 50 50, PdfCell.image "e" 50 50, blankCell]])).length =
      ((["a", "b", "c", "d", "e"] : List String).length +
          blockCols (PdfBlock.grid 3
            [[PdfCell.image "a" 50 50, PdfCell.image "b" 50 50, PdfCell.image "c" 50 50],
             [PdfCell.image "d" 50 50, PdfCell.image "e" 50 50, blankCell]]) - 1) /
        blockCols (PdfBlock.grid 3
          [[PdfCell.image "a" 50 50, PdfCell.image "b" 50 50, PdfCell.image "c" 50 50],
           [PdfCell.image "d" 50 50, PdfCell.image "e" 50 50, blankCell]]) ∧
    (2 ≤ (["a", "b", "c", "d", "e"] : List String).length →
      (blockRows (PdfBlock.grid 3
          [[PdfCell.image "a" 50 50, PdfCell.image "b" 50 50, PdfCell.image "c" 50 50],
           [PdfCell.image "d" 50 50, PdfCell.image "e" 50 50, blankCell]])).flatten =
        (["a", "b", "c", "d", "e"] : List String).map
            (pdfCell (fun _ => ImgSrc.valid 800 600)
              (if (["a", "b", "c", "d", "e"] : List String).length ≤ 4 then (70 : ℚ) else 50)) ++
          List.replicate
            (blockCols (PdfBlock.grid 3
                [[PdfCell.image "a" 50 50, PdfCell.image "b" 50 50, PdfCell.image "c" 50 50],
                 [PdfCell.image "d" 50 50, PdfCell.image "e" 50 50, blankCell]]) *
              (blockRows (PdfBlock.grid 3
                  [[PdfCell.image "a" 50 50, PdfCell.image "b" 50 50, PdfCell.image "c" 50 50],
                   [PdfCell.image "d" 50 50, PdfCell.image "e" 50 50, blankCell]])).length -
              (["a", "b", "c", "d", "e"] : List String).length) blankCell) :=
  pdf_grid_plan ["a", "b", "c", "d", "e"] (fun _ => ImgSrc.valid 800 600)
    (PdfBlock.grid 3
      [[PdfCell.image "a" 50 50, PdfCell.image "b" 50 50, PdfCell.image "c" 50 50],
       [PdfCell.image "d" 50 50, PdfCell.image "e" 50 50, blankCell]]) (by rfl)

/-! ## Claim C4: text-only fallback table -/

lemma textRowsGo_length : ∀ (items : List Item) (i : ℕ),
    (textRowsGo i items).length = items.length := by
  intro items
  induction items with
  | nil => intro i; rfl
  | cons it rest ih => intro i; simp [textRowsGo, ih]

lemma textRowsGo_getElem? : ∀ (items : List Item) (i k : ℕ) (it : Item),
    items[k]? = some it →
      (textRowsGo i items)[k]? = some [toString (i + k + 1), it.description] := by
  intro items
  induction items with
  | nil => intro i k it h; simp at h
  | cons hd rest ih =>
      intro i k it h
      cases k with
      | zero =>
          simp at h
          subst h
          simp [textRowsGo]
      | succ k' =>
          simp only [List.getElem?_cons_succ] at h
          have h2 := ih (i + 1) k' it h
          simp only [textRowsGo, List.getElem?_cons_succ]
          rw [show i + (k' + 1) = i + 1 + k' from by omega]
          exact h2

/-- C4.  When every item of the project has zero images, `_export_pdf_file`
renders the text-only fallback table instead of the per-item flow, and that
table has exactly `len(items) + 1` rows: the header row followed by one
`[index, description]` row per item in list order. -/
theorem pdf_text_only_fallback (title : String) (items : List Item) (env : Env)
    (now : String) (hall : ∀ it ∈ items, it.images = []) :
    ∃ rows, (exportPdf title items env now).body = PdfBody.textTable rows ∧
      rows.length = items.length + 1 ∧
      rows[0]? = some ["序号", "维修内容描述"] ∧
      (∀ k it, items[k]? = some it →
        rows[k + 1]? = some [toString (k + 1), it.description]) := by
  have hany : items.any (fun it => !it.images.isEmpty) = false := by
    rw [List.any_eq_false]
    intro it hit
    simp [hall it hit]
  refine ⟨textOnlyRows items, ?_, ?_, ?_, ?_⟩
  · simp [exportPdf, hany]
  · simp [textOnlyRows, textRowsGo_length]
  · simp [textOnlyRows]
  · intro k it hk
    simp only [textOnlyRows, List.getElem?_cons_succ]
    have h2 := textRowsGo_getElem? items 0 k it hk
    simpa using h2

/-- Witness for `pdf_text_only_fallback`: two imageless items yield a
3-row table. -/
theorem pdf_text_only_fallback_witness :
    ∃ rows,
      (exportPdf "T" [⟨1, "a", []⟩, ⟨2, "b", []⟩] (fun _ => ImgSrc.missing) "now").body =
        PdfBody.textTable rows ∧
      rows.length = ([⟨1, "a", []⟩, ⟨2, "b", []⟩] : List Item).length + 1 ∧
      rows[0]? = some ["序号", "维修内容描述"] ∧
      (∀ k it, ([⟨1, "a", []⟩, ⟨2, "b", []⟩] : List Item)[k]? = some it →
        rows[k + 1]? = some [toString (k + 1), it.description]) :=
  pdf_text_only_fallback "T" [⟨1, "a", []⟩, ⟨2, "b", []⟩] (fun _ => ImgSrc.missing) "now"
    (by decide)

/-! ## Claim C3: uniform Excel image columns -/

lemma excelRowsGo_length (env : Env) (maxIPR : ℕ) : ∀ (items : List Item) (i : ℕ),
    (excelRowsGo env maxIPR i items).length = items.length := by
  intro items
  induction items with
  | nil => intro i; rfl
  | cons it rest ih => intro i; simp [excelRowsGo, ih]

lemma excelRowsGo_getElem? (env : Env) (maxIPR : ℕ) :
    ∀ (items : List Item) (i k : ℕ) (it : Item),
      items[k]? = some it →
        (excelRowsGo env maxIPR i items)[k]? = some (excelRowOf env maxIPR (i + k) it) := by
  intro items
  induction items with
  | nil => intro i k it h; simp at h
  | cons hd rest ih =>
      intro i k it h
      cases k with
      | zero =>
          simp at h
          subst h
          simp [excelRowsGo]
      | succ k' =>
          simp only [List.getElem?_cons_succ] at h
          have h2 := ih (i + 1) k' it h
          simp only [excelRowsGo, List.getElem?_cons_succ]
          rw [show i + (k' + 1) = i + 1 + k' from by omega]
          exact h2

/-- C3.  Every data row of the exported sheet carries exactly
`max_images_per_row` image cells regardless of its own image count: the
header spans `2 + max_images_per_row` columns, row `k` holds index `k + 1`
and the item's description, image cells are filled left-to-right up to the
item's own image count and blank from there on, and every data row's cells
in columns `1..2+max_images_per_row` (zero-image rows included) receive the
thin border. -/
theorem excel_uniform_image_columns (title : String) (items : List Item) (maxIPR : ℕ)
    (env : Env) (now : String)
    (hinv : ∀ it ∈ items, it.images.length ≤ maxIPR) :
    (exportExcel title items maxIPR env now).headerCells.length = 2 + maxIPR ∧
    (exportExcel title items maxIPR env now).dataRows.length = items.length ∧
    (∀ row ∈ (exportExcel title items maxIPR env now).dataRows,
      row.imageCells.length = maxIPR) ∧
    (∀ k it, items[k]? = some it →
      ∃ row, (exportExcel title items maxIPR env now).dataRows[k]? = some row ∧
        row.index = k + 1 ∧
        row.description = it.description ∧
        (∀ j, j < it.images.length →
          row.imageCells[j]? = (it.images[j]?).map (excelCellOf env)) ∧
        (∀ j, it.images.length ≤ j → j < maxIPR →
          row.imageCells[j]? = some ExcelCell.blank)) ∧
    (∀ k, k < items.length → ∀ c, 1 ≤ c → c ≤ 2 + maxIPR →
      (5 + k, c) ∈ (exportExcel title items maxIPR env now).borderCells) := by
  refine ⟨?_, ?_, ?_, ?_, ?_⟩
  · simp [exportExcel]
    omega
  · simp [exportExcel, excelRowsGo_length]
  · intro row hrow
    simp only [exportExcel] at hrow
    -- every row produced by the loop is an `excelRowOf`
    have hshape : ∀ (l : List Item) (i : ℕ), row ∈ excelRowsGo env maxIPR i l →
        row.imageCells.length = maxIPR := by
      intro l
      induction l with
      | nil => intro i h; simp [excelRowsGo] at h
      | cons hd rest ih =>
          intro i h
          rcases List.mem_cons.mp h with h1 | h2
          · subst h1
            simp only [excelRowOf, List.length_append, List.length_map,
              List.length_replicate, List.length_take]
            omega
          · exact ih (i + 1) h2
    exact hshape items 0 hrow
  · intro k it hk
    have hmem : it ∈ items := by
      have hklt : k < items.length := by
        by_contra hge
        rw [List.getElem?_eq_none (by omega)] at hk
        exact Option.noConfusion hk
      have := List.getElem?_eq_getElem hklt
      rw [this] at hk
      exact (Option.some.injEq _ _).mp hk ▸ List.getElem_mem hklt
    have htake : it.images.take maxIPR = it.images :=
      List.take_of_length_le (hinv it hmem)
    refine ⟨excelRowOf env maxIPR k it, ?_, rfl, rfl, ?_, ?_⟩
    · have h2 := excelRowsGo_getElem? env maxIPR items 0 k it hk
      simpa using h2
    · intro j hj
      simp only [excelRowOf, htake]
      rw [List.getElem?_append_left (by simpa using hj), List.getElem?_map]
    · intro j hj1 hj2
      simp only [excelRowOf, htake]
      rw [List.getElem?_append_right (by simpa using hj1), List.getElem?_replicate,
        if_pos (by simp; omega)]
  · intro k hk c hc1 hc2
    simp only [exportExcel, List.mem_flatMap]
    refine ⟨5 + k, ?_, ?_⟩
    · rw [List.mem_range'_1]
      omega
    · simp only [List.mem_map]
      exact ⟨c, by rw [List.mem_range'_1]; omega, rfl⟩

/-- Witness for `excel_uniform_image_columns`: the spec's concrete scenario,
item A with three images and item B with none, at `max_images_per_row = 3`. -/
theorem excel_uniform_image_columns_witness :
    (exportExcel "Q1 Maintenance" [⟨1, "A", ["a1", "a2", "a3"]⟩, ⟨2, "B", []⟩] 3
        (fun _ => ImgSrc.missing) "now").headerCells.length = 2 + 3 ∧
    (exportExcel "Q1 Maintenance" [⟨1, "A", ["a1", "a2", "a3"]⟩, ⟨2, "B", []⟩] 3
        (fun _ => ImgSrc.missing) "now").dataRows.length =
      ([⟨1, "A", ["a1", "a2", "a3"]⟩, ⟨2, "B", []⟩] : List Item).length ∧
    (∀ row ∈ (exportExcel "Q1 Maintenance" [⟨1, "A", ["a1", "a2", "a3"]⟩, ⟨2, "B", []⟩] 3
        (fun _ => ImgSrc.missing) "now").dataRows,
      row.imageCells.length = 3) ∧
    (∀ k it, ([⟨1, "A", ["a1", "a2", "a3"]⟩, ⟨2, "B", []⟩] : List Item)[k]? = some it →
      ∃ row, (exportExcel "Q1 Maintenance" [⟨1, "A", ["a1", "a2", "a3"]⟩, ⟨2, "B", []⟩] 3
          (fun _ => ImgSrc.missing) "now").dataRows[k]? = some row ∧
        row.index = k + 1 ∧
        row.description = it.description ∧
        (∀ j, j < it.images.length →
          row.imageCells[j]? = (it.images[j]?).map (excelCellOf (fun _ => ImgSrc.missing))) ∧
        (∀ j, it.images.length ≤ j → j < 3 →
          row.imageCells[j]? = some ExcelCell.blank)) ∧
    (∀ k, k < ([⟨1, "A", ["a1", "a2", "a3"]⟩, ⟨2, "B", []⟩] : List Item).length →
      ∀ c, 1 ≤ c → c ≤ 2 + 3 →
        (5 + k, c) ∈ (exportExcel "Q1 Maintenance"
          [⟨1, "A", ["a1", "a2", "a3"]⟩, ⟨2, "B", []⟩] 3
          (fun _ => ImgSrc.missing) "now").borderCells) :=
  excel_uniform_image_columns "Q1 Maintenance"
    [⟨1, "A", ["a1", "a2", "a3"]⟩, ⟨2, "B", []⟩] 3 (fun _ => ImgSrc.missing) "now"
    (by decide)

/-! ## Claim C5: PDF pagination and KeepTogether wrapping -/

lemma layoutGo_eq_amended (env : Env) : ∀ (items : List Item) (idx : ℕ),
    layoutGo env idx items = amendedStoryGo env idx items := by
  intro items
  induction items with
  | nil => intro idx; rfl
  | cons it rest ih =>
      intro idx
      cases idx with
      | zero => simp [layoutGo, amendedStoryGo, ih 1]
      | succ n =>
          by_cases h3 : it.images.length ≤ 3 <;>
            simp [layoutGo, amendedStoryGo, ih (n + 2), h3]

/-- The first item of the flow is never wrapped in `KeepTogether`, even with
at most 3 images: the story the code builds differs from the one claim C5
describes already for two one-image items (the code starts with the item-1
title paragraph, the claim's story with a `KeepTogether` wrapper). -/
theorem pdf_keep_counterexample :
    layoutGo (fun _ => ImgSrc.missing) 0 [⟨1, "a", ["x"]⟩, ⟨2, "b", ["y"]⟩] ≠
      statedStoryGo (fun _ => ImgSrc.missing) 0 [⟨1, "a", ["x"]⟩, ⟨2, "b", ["y"]⟩] := by
  intro h
  simp [layoutGo, statedStoryGo, sectionContent, createPdfImages] at h

/-- C5 (amended: only item sections *after the first* with at most 3 images
are wrapped; the first item's section is emitted unwrapped).  The item flow
built by `_create_optimized_pdf_layout` equals the story that: emits each
section in order; precedes every section after the first with a 15pt
spacer; wraps a section in `KeepTogether` exactly when it is not the first
and its item has at most 3 images; and between consecutive sections emits a
page break exactly when the next item has more than 4 images or the current
item's 1-based position is a multiple of 3, and a 20pt spacer otherwise. -/
theorem pdf_layout_spec (env : Env) (items : List Item) :
    layoutGo env 0 items = amendedStoryGo env 0 items :=
  layoutGo_eq_amended env items 0

/-! ## Claim C6: per-image failure handling -/

/-- In the multi-image PDF grid a missing source file does *not* produce a
textual placeholder naming the failed file: the code appends the empty
string `""` as the cell.  With `a.jpg` readable and `b.jpg` missing, the
cell at the failed image's grid position is the empty text cell, and no
text of that cell mentions `b.jpg`. -/
theorem pdf_placeholder_counterexample :
    createPdfImages ["a.jpg", "b.jpg"]
        (fun p => if p = "a.jpg" then ImgSrc.valid 800 600 else ImgSrc.missing) =
      some (PdfBlock.grid 2 [[PdfCell.image "a.jpg" 70 70, PdfCell.text ""]]) ∧
    (blockRows (PdfBlock.grid 2
        [[PdfCell.image "a.jpg" 70 70, PdfCell.text ""]])).flatten[1]? =
      some (PdfCell.text "") ∧
    ¬ namesFile (PdfCell.text "") (pathBase "b.jpg") := by
  refine ⟨by rfl, by rfl, ?_⟩
  rintro ⟨t, pre, post, ht, heq⟩
  have ht' : t = "" := by
    simpa [cellText] using ht.symm
  subst ht'
  have hlen := congrArg String.length heq
  rw [String.length_append, String.length_append] at hlen
  have hb : (pathBase "b.jpg").length = 5 := by rfl
  rw [hb] at hlen
  simp at hlen
  omega

/-- C6 (amended: only the Excel export names the failed file; the PDF grid
substitutes an *empty* cell at the failed position and a failed single
image degrades to a generic paragraph).  For an item image whose source
file is missing *or cannot be decoded*, the Excel export still produces one
data row per item and writes, in that image's cell, a text placeholder
containing the file's basename (`"图片文件不存在:\n" + basename` for a
missing file, `"图片处理失败:\n" + basename` for a decode failure), while
the multi-image PDF grid holds the empty text cell at that image's
position, and an item whose single image fails gets no image block — its
section carries the generic `图片加载失败` paragraph instead; in both
formats the failure stays confined to that position. -/
theorem image_failure_isolated (title : String) (items : List Item) (maxIPR : ℕ)
    (env : Env) (now : String) (i j : ℕ) (it : Item) (p : String)
    (hit : items[i]? = some it) (hp : it.images[j]? = some p)
    (hfail : env p = ImgSrc.missing ∨ env p = ImgSrc.broken) :
    (exportExcel title items maxIPR env now).dataRows.length = items.length ∧
    (j < maxIPR →
      ∃ row s pre post,
        (exportExcel title items maxIPR env now).dataRows[i]? = some row ∧
        row.imageCells[j]? = some (ExcelCell.textCell s) ∧
        s = pre ++ pathBase p ++ post ∧
        (env p = ImgSrc.missing → s = "图片文件不存在:\n" ++ pathBase p) ∧
        (env p = ImgSrc.broken → s = "图片处理失败:\n" ++ pathBase p)) ∧
    (2 ≤ it.images.length → ∀ b, createPdfImages it.images env = some b →
      (blockRows b).flatten[j]? = some blankCell) ∧
    (it.images = [p] →
      createPdfImages it.images env = none ∧
      ∀ idx, sectionContent env idx it =
        [PdfElem.para (toString (idx + 1) ++ ". " ++ it.description),
         PdfElem.para "图片加载失败"]) := by
  have hjlen : j < it.images.length := by
    by_contra hge
    rw [List.getElem?_eq_none (by omega)] at hp
    exact Option.noConfusion hp
  refine ⟨by simp [exportExcel, excelRowsGo_length], ?_, ?_, ?_⟩
  · intro hjmax
    have hrowget : (exportExcel title items maxIPR env now).dataRows[i]? =
        some (excelRowOf env maxIPR i it) := by
      have h2 := excelRowsGo_getElem? env maxIPR items 0 i it hit
      simpa [exportExcel] using h2
    have htj : (it.images.take maxIPR)[j]? = some p := by
      rw [List.getElem?_take, if_pos hjmax, hp]
    have hjtake : j < (it.images.take maxIPR).length := by
      simp only [List.length_take]
      omega
    have hcell : (excelRowOf env maxIPR i it).imageCells[j]? =
        some (excelCellOf env p) := by
      simp only [excelRowOf]
      rw [List.getElem?_append_left (by simpa using hjtake), List.getElem?_map, htj]
      rfl
    rcases hfail with henv | henv
    · refine ⟨excelRowOf env maxIPR i it, "图片文件不存在:\n" ++ pathBase p,
        "图片文件不存在:\n", "", hrowget, ?_, by simp, fun _ => rfl, fun hcb => ?_⟩
      · rw [hcell]
        simp [excelCellOf, henv]
      · rw [henv] at hcb
        exact absurd hcb (by simp)
    · refine ⟨excelRowOf env maxIPR i it, "图片处理失败:\n" ++ pathBase p,
        "图片处理失败:\n", "", hrowget, ?_, by simp, fun hcm => ?_, fun _ => rfl⟩
      · rw [hcell]
        simp [excelCellOf, henv]
      · rw [henv] at hcm
        exact absurd hcm (by simp)
  · intro h2 b hb
    have hspec := createPdfImages_spec it.images env b hb
    rw [hspec.2.2.2 h2]
    have hjmap : j < (it.images.map (pdfCell env
        (if it.images.length ≤ 4 then (70 : ℚ) else 50))).length := by
      simpa using hjlen
    rw [List.getElem?_append_left hjmap, List.getElem?_map, hp]
    rcases hfail with henv | henv <;> simp [pdfCell, henv, blankCell]
  · intro hsingle
    have hnone : createPdfImages [p] env = none := by
      rcases hfail with henv | henv <;> simp [createPdfImages, henv]
    refine ⟨by rw [hsingle]; exact hnone, fun idx => ?_⟩
    simp [sectionContent, hsingle, hnone]

/-- Witness for `image_failure_isolated`: one item with a readable first
image and a missing second image. -/
theorem image_failure_isolated_witness :
    (exportExcel "T" [⟨1, "d", ["a.jpg", "b.jpg"]⟩] 2
        (fun q => if q = "a.jpg" then ImgSrc.valid 800 600 else ImgSrc.missing)
        "now").dataRows.length = ([⟨1, "d", ["a.jpg", "b.jpg"]⟩] : List Item).length ∧
    (1 < 2 →
      ∃ row s pre post,
        (exportExcel "T" [⟨1, "d", ["a.jpg", "b.jpg"]⟩] 2
            (fun q => if q = "a.jpg" then ImgSrc.valid 800 600 else ImgSrc.missing)
            "now").dataRows[0]? = some row ∧
        row.imageCells[1]? = some (ExcelCell.textCell s) ∧
        s = pre ++ pathBase "b.jpg" ++ post ∧
        ((fun q => if q = "a.jpg" then ImgSrc.valid 800 600 else ImgSrc.missing) "b.jpg" =
            ImgSrc.missing → s = "图片文件不存在:\n" ++ pathBase "b.jpg") ∧
        ((fun q => if q = "a.jpg" then ImgSrc.valid 800 600 else ImgSrc.missing) "b.jpg" =
            ImgSrc.broken → s = "图片处理失败:\n" ++ pathBase "b.jpg")) ∧
    (2 ≤ (Item.mk 1 "d" ["a.jpg", "b.jpg"]).images.length →
      ∀ b, createPdfImages (Item.mk 1 "d" ["a.jpg", "b.jpg"]).images
          (fun q => if q = "a.jpg" then ImgSrc.valid 800 600 else ImgSrc.missing) = some b →
        (blockRows b).flatten[1]? = some blankCell) ∧
    ((Item.mk 1 "d" ["a.jpg", "b.jpg"]).images = ["b.jpg"] →
      createPdfImages (Item.mk 1 "d" ["a.jpg", "b.jpg"]).images
          (fun q => if q = "a.jpg" then ImgSrc.valid 800 600 else ImgSrc.missing) = none ∧
      ∀ idx, sectionContent
          (fun q => if q = "a.jpg" then ImgSrc.valid 800 600 else ImgSrc.missing) idx
          (Item.mk 1 "d" ["a.jpg", "b.jpg"]) =
        [PdfElem.para (toString (idx + 1) ++ ". " ++
            (Item.mk 1 "d" ["a.jpg", "b.jpg"]).description),
         PdfElem.para "图片加载失败"]) :=
  image_failure_isolated "T" [⟨1, "d", ["a.jpg", "b.jpg"]⟩] 2
    (fun q => if q = "a.jpg" then ImgSrc.valid 800 600 else ImgSrc.missing) "now"
    0 1 ⟨1, "d", ["a.jpg", "b.jpg"]⟩ "b.jpg" (by rfl) (by rfl) (Or.inl (by rfl))

/-! ## Claim C7: the max_images_per_row invariant -/

lemma maxCount_eq_zero (its : List Item) :
    maxCount its = 0 ↔ its.all (fun it => it.images.isEmpty) = true := by
  induction its with
  | nil => simp [maxCount]
  | cons it rest ih =>
      simp only [maxCount, List.map_cons, List.foldr_cons, List.all_cons, Bool.and_eq_true,
        Nat.max_eq_zero_iff, List.isEmpty_iff_length_eq_zero]
      rw [← ih]
      simp [maxCount]

lemma updateMax_items (s : AppState) :
    (updateMaxImagesPerRow s).items = s.items := by
  unfold updateMaxImagesPerRow
  by_cases h : s.items.isEmpty <;> simp [h]

lemma updateMax_invariant (s : AppState) (h : s.items ≠ []) :
    (updateMaxImagesPerRow s).maxImagesPerRow = specMaxImages s.items := by
  have hemp : s.items.isEmpty = false := by
    rw [List.isEmpty_eq_false_iff_exists_mem]
    cases hit : s.items with
    | nil => exact absurd hit h
    | cons a l => exact ⟨a, by simp [hit]⟩
  unfold updateMaxImagesPerRow specMaxImages
  rw [hemp]
  simp only [Bool.false_eq_true, if_false, false_or]
  by_cases hall : s.items.all (fun it => it.images.isEmpty) = true
  · rw [if_pos ((maxCount_eq_zero s.items).mpr hall), if_pos hall]
  · rw [if_neg (fun h0 => hall ((maxCount_eq_zero s.items).mp h0)), if_neg hall]

/-- Deleting the only item leaves `max_images_per_row` at its stale value:
from a state with one 3-image item (where the invariant holds), the delete
operation empties the item list but `update_max_images_per_row`, guarded by
`if self.items:`, keeps `max_images_per_row = 3` instead of the claimed
`1`. -/
theorem max_images_stale_counterexample :
    (applyOp (Op.deleteItem 0) ⟨[⟨1, "d", ["a", "b", "c"]⟩], 1, 3⟩).items = [] ∧
    (applyOp (Op.deleteItem 0) ⟨[⟨1, "d", ["a", "b", "c"]⟩], 1, 3⟩).maxImagesPerRow = 3 ∧
    specMaxImages [] = 1 :=
  ⟨rfl, rfl, rfl⟩

/-- C7 (amended: the invariant holds whenever the resulting item list is
nonempty; an operation that leaves the list empty does not reset
`max_images_per_row` to 1 — the guard `if self.items:` skips the update).
After any item-collection operation that results in a nonempty list,
`max_images_per_row` equals the maximum image count over the items, or 1
when every item has zero images. -/
theorem max_images_invariant (s : AppState) (op : Op)
    (hne : (applyOp op s).items ≠ []) :
    (applyOp op s).maxImagesPerRow = specMaxImages (applyOp op s).items := by
  cases op with
  | addItem =>
      simp only [applyOp] at hne ⊢
      rw [updateMax_items] at hne ⊢
      exact updateMax_invariant _ hne
  | deleteItem idx =>
      simp only [applyOp] at hne ⊢
      rw [updateMax_items] at hne ⊢
      exact updateMax_invariant _ hne
  | addImages idx paths validPath =>
      simp only [applyOp] at hne ⊢
      rw [updateMax_items] at hne ⊢
      exact updateMax_invariant _ hne
  | deleteImage idx p =>
      simp only [applyOp] at hne ⊢
      rw [updateMax_items] at hne ⊢
      exact updateMax_invariant _ hne
  | clearImages idx =>
      simp only [applyOp] at hne ⊢
      rw [updateMax_items] at hne ⊢
      exact updateMax_invariant _ hne
  | newProject =>
      simp only [applyOp] at hne ⊢
      by_cases h : s.items.isEmpty = true
      · rw [if_pos h] at hne ⊢
        exact absurd (List.isEmpty_iff.mp h) hne
      · rw [if_neg h] at hne ⊢
        rw [updateMax_items] at hne
        exact absurd rfl hne
  | openProject loaded fileMax =>
      simp only [applyOp] at hne ⊢
      rw [updateMax_items] at hne ⊢
      exact updateMax_invariant _ hne

/-- Witness for `max_images_invariant`: adding an item to the empty project
yields `max_images_per_row = 1 = specMaxImages`. -/
theorem max_images_invariant_witness :
    (applyOp Op.addItem ⟨[], 0, 1⟩).maxImagesPerRow =
      specMaxImages (applyOp Op.addItem ⟨[], 0, 1⟩).items :=
  max_images_invariant ⟨[], 0, 1⟩ Op.addItem (by decide)

/-! ## Claim C8: Excel row heights -/

lemma excelRowHeight_eq (env : Env) : ∀ (shown : List String) (a : ℚ), 0 ≤ a →
    shown.foldl
        (fun acc p =>
          match env p with
          | ImgSrc.valid w h => max acc (((fitImage w h 1200 900).2 : ℚ) * (8 / 25) * (4 / 5))
          | _ => acc) a =
      max a ((embedHeights env shown).foldr max 0) := by
  intro shown
  induction shown with
  | nil =>
      intro a ha
      simp only [List.foldl_nil, embedHeights, List.filterMap_nil, List.map_nil,
        List.foldr_nil]
      exact (max_eq_left ha).symm
  | cons p rest ih =>
      intro a ha
      cases henv : env p with
      | valid w h =>
          simp only [List.foldl_cons, embedHeights, List.filterMap_cons, henv,
            List.map_cons, List.foldr_cons]
          rw [show (rest.filterMap (fun p =>
              match env p with
              | ImgSrc.valid w h => some ((fitImage w h 1200 900).2)
              | _ => none)).map (fun fh : ℕ => (fh : ℚ) * (8 / 25) * (4 / 5)) =
            embedHeights env rest from rfl]
          rw [ih _ (le_max_of_le_left ha)]
          exact max_assoc a _ _
      | missing =>
          simp only [List.foldl_cons, embedHeights, List.filterMap_cons, henv]
          exact ih a ha
      | broken =>
          simp only [List.foldl_cons, embedHeights, List.filterMap_cons, henv]
          exact ih a ha

/-- C8.  Each data row's height is the maximum, over the row's successfully
embedded images, of the fitted pixel height times 0.32 times 0.8, floored
at 40 — so a row with no successfully embedded images gets exactly 40 — and
every embedded image cell holds the 1200x900 fit displayed at 0.32 of its
fitted pixel size. -/
theorem excel_row_height_spec (title : String) (items : List Item) (maxIPR : ℕ)
    (env : Env) (now : String) (k : ℕ) (row : ExcelRow)
    (hrow : (exportExcel title items maxIPR env now).dataRows[k]? = some row) :
    ∃ it, items[k]? = some it ∧
      row.height = max 40 ((embedHeights env (it.images.take maxIPR)).foldr max 0) ∧
      (embedHeights env (it.images.take maxIPR) = [] → row.height = 40) ∧
      (∀ (j : ℕ) (p : String) (w h : ℕ),
        (it.images.take maxIPR)[j]? = some p → env p = ImgSrc.valid w h →
        row.imageCells[j]? = some (ExcelCell.embedded p (fitImage w h 1200 900).1
          (fitImage w h 1200 900).2
          (((fitImage w h 1200 900).1 : ℚ) * (8 / 25))
          (((fitImage w h 1200 900).2 : ℚ) * (8 / 25)))) := by
  have hk : k < items.length := by
    by_contra hge
    rw [exportExcel] at hrow
    simp only at hrow
    rw [List.getElem?_eq_none (by rw [excelRowsGo_length]; omega)] at hrow
    exact Option.noConfusion hrow
  have hit : items[k]? = some items[k] := List.getElem?_eq_getElem hk
  have h2 := excelRowsGo_getElem? env maxIPR items 0 k items[k] hit
  rw [exportExcel] at hrow
  simp only at hrow
  rw [h2] at hrow
  have hroweq : row = excelRowOf env maxIPR (0 + k) items[k] :=
    ((Option.some.injEq _ _).mp hrow).symm
  refine ⟨items[k], hit, ?_, ?_, ?_⟩
  · rw [hroweq]
    show excelRowHeight env (items[k].images.take maxIPR) = _
    unfold excelRowHeight
    exact excelRowHeight_eq env _ 40 (by norm_num)
  · intro hnone
    rw [hroweq]
    show excelRowHeight env (items[k].images.take maxIPR) = 40
    unfold excelRowHeight
    rw [excelRowHeight_eq env _ 40 (by norm_num), hnone]
    simp
  · intro j p w h hp henv
    have hjlt : j < (items[k].images.take maxIPR).length := by
      by_contra hge
      rw [List.getElem?_eq_none (by omega)] at hp
      exact Option.noConfusion hp
    rw [hroweq]
    show (List.map (excelCellOf env) (items[k].images.take maxIPR) ++
        List.replicate (maxIPR - (items[k].images.take maxIPR).length) ExcelCell.blank)[j]? = _
    rw [List.getElem?_append_left (by simpa using hjlt), List.getElem?_map, hp]
    simp [excelCellOf, henv]

/-- Witness for `excel_row_height_spec`: a row whose single image file is
missing keeps the minimum height 40. -/
theorem excel_row_height_spec_witness :
    ∃ it, ([⟨1, "d", ["a"]⟩] : List Item)[0]? = some it ∧
      (ExcelRow.mk 1 "d" [ExcelCell.textCell ("图片文件不存在:\n" ++ pathBase "a")] 40).height =
        max 40 ((embedHeights (fun _ => ImgSrc.missing) (it.images.take 1)).foldr max 0) ∧
      (embedHeights (fun _ => ImgSrc.missing) (it.images.take 1) = [] →
        (ExcelRow.mk 1 "d" [ExcelCell.textCell ("图片文件不存在:\n" ++ pathBase "a")] 40).height = 40) ∧
      (∀ (j : ℕ) (p : String) (w h : ℕ), (it.images.take 1)[j]? = some p →
        (fun _ => ImgSrc.missing : Env) p = ImgSrc.valid w h →
        (ExcelRow.mk 1 "d" [ExcelCell.textCell ("图片文件不存在:\n" ++ pathBase "a")] 40).imageCells[j]? =
          some (ExcelCell.embedded p (fitImage w h 1200 900).1 (fitImage w h 1200 900).2
            (((fitImage w h 1200 900).1 : ℚ) * (8 / 25))
            (((fitImage w h 1200 900).2 : ℚ) * (8 / 25)))) :=
  excel_row_height_spec "T" [⟨1, "d", ["a"]⟩] 1 (fun _ => ImgSrc.missing) "now" 0
    (ExcelRow.mk 1 "d" [ExcelCell.textCell ("图片文件不存在:\n" ++ pathBase "a")] 40)
    (by rfl)

/-! ## Claim C9: structural determinism of exports -/

/-- C9.  Exporting the same project snapshot twice against the same source
images yields structurally identical documents in both formats: every part
of either document other than the generation-timestamp subtitle is
independent of the clock string, and the subtitle is exactly the fixed
prefix followed by the timestamp. -/
theorem export_deterministic (title : String) (items : List Item) (maxIPR : ℕ)
    (env : Env) (t1 t2 : String) :
    excelShape (exportExcel title items maxIPR env t1) =
      excelShape (exportExcel title items maxIPR env t2) ∧
    pdfShape (exportPdf title items env t1) = pdfShape (exportPdf title items env t2) ∧
    (exportExcel title items maxIPR env t1).subtitleCell = "生成时间：" ++ t1 ∧
    (exportPdf title items env t1).subtitle = "生成时间：" ++ t1 :=
  ⟨rfl, rfl, rfl, rfl⟩

/-! ## Claim C10: single-character column references -/

lemma excelAnchorsRow_mem (env : Env) (rowIdx : ℕ) :
    ∀ (l : List String) (col : ℕ) (pr : ℕ × ℕ),
      pr ∈ excelAnchorsRow env rowIdx col l →
        ∃ d, d < l.length ∧ pr.1 = 64 + col + d := by
  intro l
  induction l with
  | nil => intro col pr h; simp [excelAnchorsRow] at h
  | cons p rest ih =>
      intro col pr h
      simp only [excelAnchorsRow] at h
      rcases List.mem_append.mp h with h1 | h2
      · cases henv : env p with
        | valid w hh =>
            rw [henv] at h1
            simp at h1
            refine ⟨0, by simp, ?_⟩
            rw [h1]
            rfl
        | missing => rw [henv] at h1; simp at h1
        | broken => rw [henv] at h1; simp at h1
      · obtain ⟨d, hd, hpr⟩ := ih (col + 1) pr h2
        exact ⟨d + 1, by simp; omega, by omega⟩

lemma excelAnchorsGo_mem (env : Env) (maxIPR : ℕ) :
    ∀ (l : List Item) (rowIdx : ℕ) (pr : ℕ × ℕ),
      pr ∈ excelAnchorsGo env maxIPR rowIdx l →
        ∃ d, d < maxIPR ∧ pr.1 = 67 + d := by
  intro l
  induction l with
  | nil => intro rowIdx pr h; simp [excelAnchorsGo] at h
  | cons it rest ih =>
      intro rowIdx pr h
      simp only [excelAnchorsGo] at h
      rcases List.mem_append.mp h with h1 | h2
      · obtain ⟨d, hd, hpr⟩ := excelAnchorsRow_mem env rowIdx _ 3 pr h1
        have hdlt : d < maxIPR := by
          have := List.length_take_le maxIPR it.images
          omega
        exact ⟨d, hdlt, by omega⟩
      · exact ih (rowIdx + 1) pr h2

/-- C10.  Every single-character column reference the Excel export computes
with `chr` — the merged title/subtitle end column `chr(64+total_cols)`, the
image anchors `chr(64+col)` and the width keys `chr(67+i)` — has a code in
`A..Z` (65..90) whenever `max_images_per_row ≤ 24`, while for
`max_images_per_row ≥ 25` the merge end column code already exceeds
`Z = 90`, so the reference is no longer a valid single-letter column
name. -/
theorem excel_column_codes (title : String) (items : List Item) (maxIPR : ℕ)
    (env : Env) (now : String) :
    (maxIPR ≤ 24 →
      ∀ c ∈ excelColCodes (exportExcel title items maxIPR env now), 65 ≤ c ∧ c ≤ 90) ∧
    (25 ≤ maxIPR →
      90 < (exportExcel title items maxIPR env now).mergedEndCode ∧
      (exportExcel title items maxIPR env now).mergedEndCode ∈
        excelColCodes (exportExcel title items maxIPR env now)) := by
  have hm : (exportExcel title items maxIPR env now).mergedEndCode = 64 + (2 + maxIPR) := rfl
  have hw : (exportExcel title items maxIPR env now).colWidths =
      [(65, (8 : ℚ)), (66, 45)] ++ (List.range maxIPR).map (fun i => (67 + i, (52 : ℚ))) := rfl
  have ha : (exportExcel title items maxIPR env now).anchors =
      excelAnchorsGo env maxIPR 5 items := rfl
  constructor
  · intro h24 c hc
    simp only [excelColCodes] at hc
    rw [hm, hw, ha] at hc
    rcases List.mem_cons.mp hc with hc | hc
    · omega
    · rcases List.mem_append.mp hc with hc | hc
      · rw [List.map_append] at hc
        rcases List.mem_append.mp hc with hc | hc
        · have h65 : c ∈ [65, 66] := by simpa using hc
          rcases List.mem_cons.mp h65 with h65 | h65
          · omega
          · have h66 : c = 66 := by simpa using h65
            omega
        · rw [List.map_map] at hc
          obtain ⟨i, hi, hci⟩ := List.mem_map.mp hc
          rw [List.mem_range] at hi
          have hcv : c = 67 + i := by simpa [Function.comp] using hci.symm
          omega
      · obtain ⟨pr, hpr, hcpr⟩ := List.mem_map.mp hc
        obtain ⟨d, hd, hprv⟩ := excelAnchorsGo_mem env maxIPR items 5 pr hpr
        omega
  · intro h25
    refine ⟨?_, List.mem_cons_self _ _⟩
    rw [hm]
    omega

/-- Witness for `excel_column_codes`: three image columns keep every code in
`A..Z`; twenty-five make the merge end column code 91, past `Z`. -/
theorem excel_column_codes_witness :
    (∀ c ∈ excelColCodes (exportExcel "T" [] 3 (fun _ => ImgSrc.missing) "now"),
        65 ≤ c ∧ c ≤ 90) ∧
    (90 < (exportExcel "T" [] 25 (fun _ => ImgSrc.missing) "now").mergedEndCode ∧
      (exportExcel "T" [] 25 (fun _ => ImgSrc.missing) "now").mergedEndCode ∈
        excelColCodes (exportExcel "T" [] 25 (fun _ => ImgSrc.missing) "now")) :=
  ⟨(excel_column_codes "T" [] 3 (fun _ => ImgSrc.missing) "now").1 (by norm_num),
   (excel_column_codes "T" [] 25 (fun _ => ImgSrc.missing) "now").2 (by norm_num)⟩

end RepairReport
